import Mathlib

/-!
# Verification of the Jira workflow-transition analyzer

Shallow embedding of the analytic core of the repository:
`utils.py` (`parse_timestamp`, `_workflow_index`, `detect_bounce_backs`,
`compute_time_in_states`, `find_testim_references`) and
`jira_client.py` (`extract_status_transitions`).

Modelling conventions:
* Python `datetime` values are embedded as `PyDateTime` records; `None`
  timezone info (naive datetimes) is `offsetSeconds = none`.
* A Python function that can raise (`ValueError` from `fromisoformat`,
  i.e. the spec's `MalformedTimestamp`, or `TypeError` from mixed
  naive/aware arithmetic) is embedded as an `Option`-returning function;
  `none` is the raised exception propagating to the caller.
* Python string methods used by the source (`strip`, `lower`, `replace`)
  are embedded character-by-character; `lower` is modelled on ASCII
  (every string the source compares against is ASCII).
-/

namespace Jira

/-- Python whitespace for `str.strip` / the regex class `\s`
(ASCII part: space, tab, LF, VT, FF, CR, by code point). -/
def pyIsSpace (c : Char) : Bool :=
  decide (c.toNat = 32 ∨ c.toNat = 9 ∨ c.toNat = 10 ∨ c.toNat = 11 ∨
    c.toNat = 12 ∨ c.toNat = 13)

/-- Python `str.strip()` on the character list. -/
def pyStripChars (cs : List Char) : List Char :=
  ((cs.dropWhile pyIsSpace).reverse.dropWhile pyIsSpace).reverse

/-- Python `s.strip().lower()` (ASCII lowering), as used for status
normalization in `_workflow_index` and `detect_bounce_backs`. -/
def pyStripLower (s : String) : String :=
  String.mk ((pyStripChars s.data).map Char.toLower)

/-- Source `utils.py` line 13: workflow stages in order; lower index = earlier. -/
def WORKFLOW_ORDER : List String := ["to do", "in progress", "in review", "done"]

/-- Source `utils.py` line 16: states representing a blocked/parked ticket. -/
def BLOCKED_STATES : List String := ["blocked"]

/-- One observed status change (`utils.py` transition dicts, built by
`jira_client.extract_status_transitions`). -/
structure Transition where
  timestamp : String
  from_status : String
  to_status : String
  author : String
deriving DecidableEq, Repr

/-- A detector output event.  The source appends either the transition
dict itself (no `is_blocked` key, read back as falsy by the dashboard)
or a copy with `is_blocked = True`; we embed the absent key as
`is_blocked = false`. -/
structure BounceBackEvent where
  transition : Transition
  is_blocked : Bool
deriving DecidableEq, Repr

/-- Source `utils.py` lines 58-66: position of a status in the workflow, or -1
if unknown or blocked. -/
def _workflow_index (status : String) : Int :=
  let normalized := pyStripLower status
  if normalized ∈ BLOCKED_STATES then -1
  else
    match WORKFLOW_ORDER.findIdx? (fun stage => stage = normalized) with
    | some i => (i : Int)
    | none => -1

/-- Source `utils.py` lines 69-91: detect backward movements in the workflow and
transitions to blocked states.  The loop body appends the plain transition
when `from_index > 0 and to_index >= 0 and to_index < from_index`, and,
independently, a copy with `is_blocked = True` when the normalized
`to_status` is in `BLOCKED_STATES`. -/
def detect_bounce_backs : List Transition → List BounceBackEvent
  | [] => []
  | t :: rest =>
    let from_index := _workflow_index t.from_status
    let to_index := _workflow_index t.to_status
    (if from_index > 0 ∧ to_index ≥ 0 ∧ to_index < from_index then
      [⟨t, false⟩] else [])
    ++ (if pyStripLower t.to_status ∈ BLOCKED_STATES then
      [⟨t, true⟩] else [])
    ++ detect_bounce_backs rest

/-- The non-blocked bounce-back condition of `detect_bounce_backs`. -/
def bounceCond (t : Transition) : Prop :=
  _workflow_index t.from_status > 0 ∧ _workflow_index t.to_status ≥ 0 ∧
    _workflow_index t.to_status < _workflow_index t.from_status

instance (t : Transition) : Decidable (bounceCond t) := by
  unfold bounceCond; infer_instance

/-- The blocked-entry condition of `detect_bounce_backs`. -/
def blockedCond (t : Transition) : Prop :=
  pyStripLower t.to_status ∈ BLOCKED_STATES

instance (t : Transition) : Decidable (blockedCond t) := by
  unfold blockedCond; infer_instance

theorem detect_cons (t : Transition) (rest : List Transition) :
    detect_bounce_backs (t :: rest) =
      (if bounceCond t then [⟨t, false⟩] else [])
      ++ (if blockedCond t then [⟨t, true⟩] else [])
      ++ detect_bounce_backs rest := by
  simp only [detect_bounce_backs, bounceCond, blockedCond]

theorem mem_detect_iff (ts : List Transition) (e : BounceBackEvent) :
    e ∈ detect_bounce_backs ts ↔
      e.transition ∈ ts ∧
        ((e.is_blocked = false ∧ bounceCond e.transition) ∨
         (e.is_blocked = true ∧ blockedCond e.transition)) := by
  induction ts with
  | nil => simp [detect_bounce_backs]
  | cons t rest ih =>
    rw [detect_cons]
    constructor
    · intro h
      rcases List.mem_append.1 h with h1 | h2
      · rcases List.mem_append.1 h1 with hb | hbl
        · by_cases hc : bounceCond t
          · simp only [if_pos hc, List.mem_singleton] at hb
            subst hb
            exact ⟨List.mem_cons_self .., Or.inl ⟨rfl, hc⟩⟩
          · simp [if_neg hc] at hb
        · by_cases hc : blockedCond t
          · simp only [if_pos hc, List.mem_singleton] at hbl
            subst hbl
            exact ⟨List.mem_cons_self .., Or.inr ⟨rfl, hc⟩⟩
          · simp [if_neg hc] at hbl
      · rcases ih.1 h2 with ⟨hmem, hcase⟩
        exact ⟨List.mem_cons_of_mem _ hmem, hcase⟩
    · rintro ⟨hmem, hcase⟩
      rcases List.mem_cons.1 hmem with heq | hmem'
      · rcases hcase with ⟨hfalse, hc⟩ | ⟨htrue, hc⟩
        · apply List.mem_append.2 (Or.inl (List.mem_append.2 (Or.inl _)))
          have : e = ⟨t, false⟩ := by
            cases e; simp_all
          rw [this, if_pos (heq ▸ hc)]
          exact List.mem_singleton.2 rfl
        · apply List.mem_append.2 (Or.inl (List.mem_append.2 (Or.inr _)))
          have : e = ⟨t, true⟩ := by
            cases e; simp_all
          rw [this, if_pos (heq ▸ hc)]
          exact List.mem_singleton.2 rfl
      · exact List.mem_append.2 (Or.inr (ih.2 ⟨hmem', hcase⟩))

/-! ## Timestamps

`parse_timestamp` (`utils.py` lines 47-55) normalizes the string and hands
it to Python's `datetime.fromisoformat`.  We embed `fromisoformat` with the
documented CPython (≤ 3.10) grammar
`YYYY-MM-DD[*HH[:MM[:SS[.fff[fff]]]][±HH:MM[:SS]]]` where `*` is any single
separator character; the result is a `PyDateTime`, with `offsetSeconds =
none` for a naive (offset-less) datetime.  `none` as the overall result is
the raised `ValueError` (the spec's `MalformedTimestamp`). -/

/-- Embedded `datetime.datetime` value: calendar fields plus an optional
UTC offset in seconds (`none` = naive). -/
structure PyDateTime where
  year : Nat
  month : Nat
  day : Nat
  hour : Nat
  minute : Nat
  second : Nat
  microsecond : Nat
  offsetSeconds : Option Int
deriving DecidableEq, Repr

def digitVal (c : Char) : Nat := c.toNat - 48

/-- Read exactly `n` decimal digits. -/
def readDigits (n : Nat) (cs : List Char) : Option (Nat × List Char) :=
  let pre := cs.take n
  if pre.length = n && pre.all Char.isDigit then
    some (pre.foldl (fun a c => a * 10 + digitVal c) 0, cs.drop n)
  else none

def expectChar (c : Char) : List Char → Option (List Char)
  | x :: r => if x = c then some r else none
  | [] => none

def isLeapYear (y : Nat) : Bool := y % 4 = 0 && (y % 100 != 0 || y % 400 = 0)

def daysInMonth (y m : Nat) : Nat :=
  if m = 2 then (if isLeapYear y then 29 else 28)
  else if m = 4 || m = 6 || m = 9 || m = 11 then 30
  else 31

/-- Time-of-day part `HH[:MM[:SS[.fff[fff]]]]` (fraction exactly 3 or 6
digits, as in CPython ≤ 3.10); returns hour, minute, second, microsecond
and the unconsumed rest. -/
def readTime (cs : List Char) : Option (Nat × Nat × Nat × Nat × List Char) := do
  let (hh, r) ← readDigits 2 cs
  match r with
  | ':' :: r2 =>
    let (mm, r3) ← readDigits 2 r2
    match r3 with
    | ':' :: r4 =>
      let (ss, r5) ← readDigits 2 r4
      match r5 with
      | '.' :: r6 =>
        let ds := r6.takeWhile Char.isDigit
        let rest := r6.dropWhile Char.isDigit
        if ds.length = 3 then
          some (hh, mm, ss, 1000 * ds.foldl (fun a c => a * 10 + digitVal c) 0, rest)
        else if ds.length = 6 then
          some (hh, mm, ss, ds.foldl (fun a c => a * 10 + digitVal c) 0, rest)
        else none
      | _ => some (hh, mm, ss, 0, r5)
    | _ => some (hh, mm, 0, 0, r3)
  | _ => some (hh, 0, 0, 0, r)

/-- UTC-offset part `±HH:MM[:SS]`, in seconds. -/
def readOffset (cs : List Char) : Option (Int × List Char) := do
  match cs with
  | sign :: r =>
    if sign = '+' || sign = '-' then do
      let (oh, r2) ← readDigits 2 r
      let r3 ← expectChar ':' r2
      let (om, r4) ← readDigits 2 r3
      let (os, r5) ← (match r4 with
        | ':' :: r5 => readDigits 2 r5
        | _ => some (0, r4))
      if oh ≤ 23 && om ≤ 59 && os ≤ 59 then
        some (if sign = '-' then -(((oh * 3600 + om * 60 + os : Nat)) : Int)
              else ((oh * 3600 + om * 60 + os : Nat) : Int), r5)
      else none
    else none
  | [] => none

/-- Model of `datetime.fromisoformat` (CPython ≤ 3.10 grammar). -/
def fromisoformat (s : String) : Option PyDateTime := do
  let (y, r) ← readDigits 4 s.data
  let r2 ← expectChar '-' r
  let (mo, r3) ← readDigits 2 r2
  let r4 ← expectChar '-' r3
  let (d, r5) ← readDigits 2 r4
  if 1 ≤ y ∧ 1 ≤ mo ∧ mo ≤ 12 ∧ 1 ≤ d ∧ d ≤ daysInMonth y mo then
    match r5 with
    | [] => some ⟨y, mo, d, 0, 0, 0, 0, none⟩
    | _sep :: r6 => do
      let (hh, mm, ss, us, r7) ← readTime r6
      let (off, r8) ← (match r7 with
        | [] => some ((none : Option Int), ([] : List Char))
        | _ => do
            let (o, r8) ← readOffset r7
            some (some o, r8))
      if hh ≤ 23 ∧ mm ≤ 59 ∧ ss ≤ 59 ∧ r8 = [] then
        some ⟨y, mo, d, hh, mm, ss, us, off⟩
      else none
  else none

/-- Python `s.replace("Z", "+00:00")` (every occurrence; the pattern is a
single character, so this is a per-character expansion). -/
def pyReplaceZ (s : String) : String :=
  String.mk (s.data.flatMap (fun c => if c = 'Z' then "+00:00".data else [c]))

/-- Python `re.search(r"[+-]\d{4}$", s)`: the string ends in a sign followed by
four digits. -/
def endsWithOffsetNoColon (s : String) : Bool :=
  match s.data.reverse with
  | d1 :: d2 :: d3 :: d4 :: sign :: _ =>
    (sign = '+' || sign = '-') && d1.isDigit && d2.isDigit && d3.isDigit && d4.isDigit
  | _ => false

/-- Python `s[:-2] + ":" + s[-2:]`. -/
def insertOffsetColon (s : String) : String :=
  String.mk (s.data.take (s.data.length - 2) ++ ':' :: s.data.drop (s.data.length - 2))

/-- The normalization step of `parse_timestamp`: rewrite `Z` to `+00:00`
and insert a colon into a trailing four-digit numeric offset. -/
def normalizeTimestampString (s : String) : String :=
  let s1 := pyReplaceZ s
  if endsWithOffsetNoColon s1 then insertOffsetColon s1 else s1

/-- Source `utils.py` lines 47-55: parse a Jira ISO timestamp. -/
def parse_timestamp (timestamp_str : String) : Option PyDateTime :=
  fromisoformat (normalizeTimestampString timestamp_str)

/-! ## Datetime arithmetic

Python compares and subtracts aware datetimes by UTC instant and naive
datetimes field-wise; mixing naive and aware raises `TypeError`.  With all
fields in their calendar ranges, field-wise comparison agrees with
comparison of the local-clock microsecond count, which is how
`date.toordinal` is defined in CPython. -/

/-- Leap years among `1..n` (CPython `datetime._days_before_year`). -/
def leapsBefore (n : Nat) : Nat := n / 4 - n / 100 + n / 400

def daysBeforeMonth (y m : Nat) : Nat :=
  (List.range (m - 1)).foldl (fun a i => a + daysInMonth y (i + 1)) 0

/-- Days from 0001-01-01 (CPython `date.toordinal`, zero-based here). -/
def toOrdinal (dt : PyDateTime) : Nat :=
  365 * (dt.year - 1) + leapsBefore (dt.year - 1)
    + daysBeforeMonth dt.year dt.month + (dt.day - 1)

/-- Local-clock microseconds since 0001-01-01T00:00:00. -/
def localMicros (dt : PyDateTime) : Int :=
  (((toOrdinal dt * 86400 + dt.hour * 3600 + dt.minute * 60 + dt.second) * 1000000
    + dt.microsecond : Nat) : Int)

/-- The instant used by Python for comparing/subtracting two datetimes of
the same awareness: UTC microseconds when aware, local clock when naive. -/
def instantMicros (dt : PyDateTime) : Int :=
  match dt.offsetSeconds with
  | some o => localMicros dt - o * 1000000
  | none => localMicros dt

/-- Python `a < b` on datetimes; `none` is the `TypeError` raised when
naive and aware are mixed. -/
def pyLt (a b : PyDateTime) : Option Bool :=
  match a.offsetSeconds, b.offsetSeconds with
  | some _, some _ => some (decide (instantMicros a < instantMicros b))
  | none, none => some (decide (instantMicros a < instantMicros b))
  | _, _ => none

/-- Python `a - b` on datetimes, in microseconds (`timedelta` is exact);
`none` is the mixed naive/aware `TypeError`. -/
def pySubMicros (a b : PyDateTime) : Option Int :=
  match a.offsetSeconds, b.offsetSeconds with
  | some _, some _ => some (instantMicros a - instantMicros b)
  | none, none => some (instantMicros a - instantMicros b)
  | _, _ => none

/-- Python `round((micros / 1e6) / 3600, 2)` — the period duration in hours
rounded to two decimals — represented losslessly as an integer count of
hundredths of an hour (the rounded value times 100).  Python's `round`
is round-half-to-even; one hundredth of an hour is 36 000 000 µs. -/
def pyRound2CentiHours (micros : Int) : Int :=
  let D : Int := 36000000
  let f := micros.fdiv D
  let r := micros - f * D
  if 2 * r < D then f
  else if 2 * r > D then f + 1
  else if f % 2 = 0 then f else f + 1

/-! ## Time-in-state reconstruction (`utils.py` lines 94-137) -/

/-- A reconstructed occupancy period.  The source stores
`entered.isoformat()` / `exited.isoformat()`; `isoformat` is injective on
datetimes, so the datetimes themselves are kept here and equality of the
stored strings is equality of these fields. -/
structure StatePeriod where
  status : String
  entered : PyDateTime
  exited : PyDateTime
  duration_centi_hours : Int
deriving DecidableEq, Repr

/-- One period record: `duration_hours = round((exited - entered)
.total_seconds() / 3600, 2)`, stored as hundredths of an hour. -/
def mkStatePeriod (status : String) (entered exited : PyDateTime) :
    Option StatePeriod := do
  let d ← pySubMicros exited entered
  some ⟨status, entered, exited, pyRound2CentiHours d⟩

/-- The loop of `compute_time_in_states` (lines 121-135): each transition
marks entry into a new state; `exited` is the next transition's timestamp,
or `now` (`datetime.now(timezone.utc)` captured once per call) for the
last. -/
def statePeriodsFrom (now : PyDateTime) : List Transition → Option (List StatePeriod)
  | [] => some []
  | t :: rest => do
    let entered ← parse_timestamp t.timestamp
    let exited ← (match rest with
      | [] => some now
      | t2 :: _ => parse_timestamp t2.timestamp)
    let p ← mkStatePeriod t.to_status entered exited
    let tail ← statePeriodsFrom now rest
    some (p :: tail)

/-- Line 107: `parse_timestamp(created_date) if created_date else
first_transition_time`.  Python truthiness of `if created_date` treats
the empty string like `None`. -/
def creation_time_of (created_date : Option String) (first_transition_time : PyDateTime) :
    Option PyDateTime :=
  match created_date with
  | some s => if s = "" then some first_transition_time else parse_timestamp s
  | none => some first_transition_time

/-- Source `utils.py` lines 94-137: compute the duration spent in each state. -/
def compute_time_in_states (transitions : List Transition)
    (created_date : Option String) (now : PyDateTime) :
    Option (List StatePeriod) :=
  match transitions with
  | [] => some []
  | t0 :: _ => do
    let first_transition_time ← parse_timestamp t0.timestamp
    let creation_time ← creation_time_of created_date first_transition_time
    let isEarlier ← pyLt creation_time first_transition_time
    let lead ← (if isEarlier then do
        let p ← mkStatePeriod t0.from_status creation_time first_transition_time
        some [p]
      else some ([] : List StatePeriod))
    let body ← statePeriodsFrom now transitions
    some (lead ++ body)

/-- The origin of the reconstructed timeline (spec glossary): the creation
instant if supplied (non-empty, parseable) and strictly earlier than the
first transition's timestamp, otherwise the first transition's
timestamp. -/
def reconstruction_origin (transitions : List Transition)
    (created_date : Option String) : Option PyDateTime :=
  match transitions with
  | [] => none
  | t0 :: _ => do
    let ft ← parse_timestamp t0.timestamp
    let ct ← creation_time_of created_date ft
    let isEarlier ← pyLt ct ft
    some (if isEarlier then ct else ft)

/-! ## Characterization of the reconstructor -/

theorem mkStatePeriod_spec {s : String} {a b : PyDateTime} {p : StatePeriod}
    (h : mkStatePeriod s a b = some p) :
    p.status = s ∧ p.entered = a ∧ p.exited = b := by
  simp only [mkStatePeriod, bind, Option.bind_eq_some, Option.some.injEq] at h
  obtain ⟨d, _, hp⟩ := h
  cases hp
  exact ⟨rfl, rfl, rfl⟩

theorem pyLt_self (a : PyDateTime) : pyLt a a = some false := by
  unfold pyLt
  cases a.offsetSeconds <;> simp

/-- Every transition whose period list is produced has a parseable
timestamp: the loop parses each element's timestamp. -/
theorem statePeriodsFrom_mem_parses {now : PyDateTime} :
    ∀ {ts : List Transition} {ps : List StatePeriod},
      statePeriodsFrom now ts = some ps →
      ∀ t ∈ ts, ∃ dt, parse_timestamp t.timestamp = some dt := by
  intro ts
  induction ts with
  | nil => intro ps _ t ht; cases ht
  | cons t0 rest ih =>
    intro ps h t ht
    simp only [statePeriodsFrom, bind, Option.bind_eq_some, Option.some.injEq] at h
    obtain ⟨entered, hent, exited, hex, p, hp, tail, htail, hps⟩ := h
    rcases List.mem_cons.1 ht with rfl | hmem
    · exact ⟨entered, hent⟩
    · exact ih htail t hmem

/-- Structure of the loop output: one period per transition, with status
`to_status`, `entered` the transition's parsed timestamp, and `exited`
the next transition's parsed timestamp, or `now` for the last. -/
theorem statePeriodsFrom_spec {now : PyDateTime} :
    ∀ {ts : List Transition} {ps : List StatePeriod},
      statePeriodsFrom now ts = some ps →
      ps.length = ts.length ∧
      ∀ i (hi : i < ts.length) (hp : i < ps.length),
        ps[i].status = ts[i].to_status ∧
        parse_timestamp ts[i].timestamp = some ps[i].entered ∧
        (∀ hj : i + 1 < ts.length, parse_timestamp ts[i+1].timestamp = some ps[i].exited) ∧
        (i + 1 = ts.length → ps[i].exited = now) := by
  intro ts
  induction ts with
  | nil =>
    intro ps h
    simp only [statePeriodsFrom, Option.some.injEq] at h
    subst h
    exact ⟨rfl, fun i hi => absurd hi (Nat.not_lt_zero i)⟩
  | cons t0 rest ih =>
    intro ps h
    simp only [statePeriodsFrom, bind, Option.bind_eq_some, Option.some.injEq] at h
    obtain ⟨entered, hent, exited, hex, p, hp, tail, htail, hps⟩ := h
    cases hps
    obtain ⟨hps2, hpe, hpx⟩ := mkStatePeriod_spec hp
    obtain ⟨hlen, hidx⟩ := ih htail
    refine ⟨by simp [hlen], ?_⟩
    intro i hi hplen
    cases i with
    | zero =>
      refine ⟨by simpa using hps2, by simpa [hpe] using hent, ?_, ?_⟩
      · intro hj
        cases rest with
        | nil => simp at hj
        | cons t1 rest' =>
          simpa [hpx] using hex
      · intro hone
        cases rest with
        | nil =>
          simp only [Option.some.injEq] at hex
          simp [hpx, ← hex]
        | cons t1 rest' => simp at hone
    | succ j =>
      have hj1 : j < rest.length := by simpa using hi
      have hj2 : j < tail.length := by simpa using hplen
      obtain ⟨h1, h2, h3, h4⟩ := hidx j hj1 hj2
      refine ⟨by simpa using h1, by simpa using h2, ?_, ?_⟩
      · intro hj
        have : j + 1 < rest.length := by simpa using hj
        simpa using h3 this
      · intro hone
        have : j + 1 = rest.length := by simpa using hone
        simpa using h4 this

/-- Decomposition of a successful `compute_time_in_states` run on a
non-empty transition list. -/
theorem compute_decompose {t0 : Transition} {rest : List Transition}
    {cd : Option String} {now : PyDateTime} {ps : List StatePeriod}
    (h : compute_time_in_states (t0 :: rest) cd now = some ps) :
    ∃ ft ct isEarlier body,
      parse_timestamp t0.timestamp = some ft ∧
      creation_time_of cd ft = some ct ∧
      pyLt ct ft = some isEarlier ∧
      statePeriodsFrom now (t0 :: rest) = some body ∧
      (isEarlier = true → ∃ d, ps = ⟨t0.from_status, ct, ft, d⟩ :: body) ∧
      (isEarlier = false → ps = body) := by
  simp only [compute_time_in_states, bind, Option.bind_eq_some, Option.some.injEq] at h
  obtain ⟨ft, hft, ct, hct, isEarlier, hlt, lead, hlead, body, hbody, hps⟩ := h
  cases hps
  refine ⟨ft, ct, isEarlier, body, hft, hct, hlt, hbody, ?_, ?_⟩
  · intro he
    subst he
    rw [if_pos rfl] at hlead
    simp only [bind, Option.bind_eq_some, Option.some.injEq] at hlead
    obtain ⟨p, hp, hl⟩ := hlead
    subst hl
    obtain ⟨h1, h2, h3⟩ := mkStatePeriod_spec hp
    refine ⟨p.duration_centi_hours, ?_⟩
    have hp2 : p = ⟨t0.from_status, ct, ft, p.duration_centi_hours⟩ := by
      cases p
      simp_all
    rw [hp2]
    rfl
  · intro he
    subst he
    rw [if_neg (by simp : ¬ (false = true))] at hlead
    simp only [Option.some.injEq] at hlead
    subst hlead
    rfl

theorem statePeriodsFrom_head {now : PyDateTime} {t0 : Transition}
    {rest : List Transition} {ps : List StatePeriod}
    (h : statePeriodsFrom now (t0 :: rest) = some ps) :
    ∃ p tl, ps = p :: tl ∧ parse_timestamp t0.timestamp = some p.entered := by
  simp only [statePeriodsFrom, bind, Option.bind_eq_some, Option.some.injEq] at h
  obtain ⟨entered, hent, exited, hex, p, hp, tail, htail, hps⟩ := h
  subst hps
  obtain ⟨_, h2, _⟩ := mkStatePeriod_spec hp
  exact ⟨p, tail, rfl, by rw [h2]; exact hent⟩

theorem statePeriodsFrom_chain {now : PyDateTime} :
    ∀ {ts : List Transition} {ps : List StatePeriod},
      statePeriodsFrom now ts = some ps →
      List.Chain' (fun a b : StatePeriod => a.exited = b.entered) ps := by
  intro ts
  induction ts with
  | nil =>
    intro ps h
    simp only [statePeriodsFrom, Option.some.injEq] at h
    subst h
    exact List.chain'_nil
  | cons t0 rest ih =>
    intro ps h
    simp only [statePeriodsFrom, bind, Option.bind_eq_some, Option.some.injEq] at h
    obtain ⟨entered, hent, exited, hex, p, hp, tail, htail, hps⟩ := h
    subst hps
    obtain ⟨_, _, hpx⟩ := mkStatePeriod_spec hp
    rw [List.chain'_cons']
    refine ⟨?_, ih htail⟩
    intro b hb
    cases rest with
    | nil =>
      simp only [statePeriodsFrom, Option.some.injEq] at htail
      subst htail
      simp at hb
    | cons t1 rest' =>
      obtain ⟨p1, tl1, htl, hp1e⟩ := statePeriodsFrom_head htail
      subst htl
      simp only [List.head?_cons, Option.mem_def, Option.some.injEq] at hb
      subst hb
      rw [hpx]
      have hex2 : parse_timestamp t1.timestamp = some exited := hex
      rw [hex2] at hp1e
      exact Option.some.inj hp1e

theorem statePeriodsFrom_last {now : PyDateTime} :
    ∀ {ts : List Transition} {ps : List StatePeriod},
      statePeriodsFrom now ts = some ps → ts ≠ [] →
      ∃ q, ps.getLast? = some q ∧ q.exited = now := by
  intro ts
  induction ts with
  | nil => intro ps _ hne; exact absurd rfl hne
  | cons t0 rest ih =>
    intro ps h _
    simp only [statePeriodsFrom, bind, Option.bind_eq_some, Option.some.injEq] at h
    obtain ⟨entered, hent, exited, hex, p, hp, tail, htail, hps⟩ := h
    subst hps
    obtain ⟨_, _, hpx⟩ := mkStatePeriod_spec hp
    cases rest with
    | nil =>
      simp only [statePeriodsFrom, Option.some.injEq] at htail
      subst htail
      simp only [Option.some.injEq] at hex
      exact ⟨p, rfl, by rw [hpx, ← hex]⟩
    | cons t1 rest' =>
      obtain ⟨q, hql, hqx⟩ := ih htail (List.cons_ne_nil t1 rest')
      obtain ⟨p1, tl1, htl, _⟩ := statePeriodsFrom_head htail
      subst htl
      exact ⟨q, by rw [List.getLast?_cons_cons]; exact hql, hqx⟩

theorem statePeriodsFrom_monotone {now : PyDateTime} :
    ∀ {ts : List Transition} {ps : List StatePeriod},
      statePeriodsFrom now ts = some ps →
      List.Chain' (fun a b : Transition => ∀ da db,
        parse_timestamp a.timestamp = some da →
        parse_timestamp b.timestamp = some db →
        instantMicros da ≤ instantMicros db) ts →
      (∀ q, ts.getLast? = some q → ∀ dl, parse_timestamp q.timestamp = some dl →
        instantMicros dl ≤ instantMicros now) →
      ∀ p ∈ ps, instantMicros p.entered ≤ instantMicros p.exited := by
  intro ts
  induction ts with
  | nil =>
    intro ps h _ _ p hp
    simp only [statePeriodsFrom, Option.some.injEq] at h
    subst h
    cases hp
  | cons t0 rest ih =>
    intro ps h hchain hnow p hmem
    simp only [statePeriodsFrom, bind, Option.bind_eq_some, Option.some.injEq] at h
    obtain ⟨entered, hent, exited, hex, p0, hp0, tail, htail, hps⟩ := h
    subst hps
    obtain ⟨_, hpe, hpx⟩ := mkStatePeriod_spec hp0
    rcases List.mem_cons.1 hmem with rfl | hmemtl
    · rw [hpe, hpx]
      cases rest with
      | nil =>
        simp only [Option.some.injEq] at hex
        subst hex
        exact hnow t0 rfl entered hent
      | cons t1 rest' =>
        exact (List.chain'_cons.1 hchain).1 entered exited hent hex
    · cases rest with
      | nil =>
        simp only [statePeriodsFrom, Option.some.injEq] at htail
        subst htail
        cases hmemtl
      | cons t1 rest' =>
        refine ih htail (List.chain'_cons.1 hchain).2 ?_ p hmemtl
        intro q hql dl hdl
        exact hnow q (by rw [List.getLast?_cons_cons]; exact hql) dl hdl

theorem pyLt_eq_decide {a b : PyDateTime} {c : Bool} (h : pyLt a b = some c) :
    c = decide (instantMicros a < instantMicros b) := by
  unfold pyLt at h
  rcases ha : a.offsetSeconds with _ | oa <;> rcases hb : b.offsetSeconds with _ | ob <;>
    rw [ha, hb] at h <;> simp_all

/-! ## Claim theorems: reconstructor -/

/-- C1: for a non-empty transition list on which the reconstruction
succeeds, the periods tile the interval from the origin to `now`: the
output is non-empty, each period's `exited` equals the next period's
`entered`, the first period's `entered` is the origin (creation instant
if supplied and strictly earlier than the first transition, otherwise
the first transition's instant), and the last period's `exited` is the
single `now` captured for the call.  Moreover, on a chronologically
sorted list with `now` not before the last transition, every period has
`entered ≤ exited` (no gaps, no overlaps). -/
theorem reconstruct_tiles (ts : List Transition) (cd : Option String)
    (now : PyDateTime) (ps : List StatePeriod) (hne : ts ≠ [])
    (hok : compute_time_in_states ts cd now = some ps) :
    ps ≠ [] ∧
    List.Chain' (fun a b : StatePeriod => a.exited = b.entered) ps ∧
    (∃ p tl, ps = p :: tl ∧ reconstruction_origin ts cd = some p.entered) ∧
    (∃ q, ps.getLast? = some q ∧ q.exited = now) ∧
    (List.Chain' (fun a b : Transition => ∀ da db,
        parse_timestamp a.timestamp = some da →
        parse_timestamp b.timestamp = some db →
        instantMicros da ≤ instantMicros db) ts →
      (∀ q, ts.getLast? = some q → ∀ dl, parse_timestamp q.timestamp = some dl →
        instantMicros dl ≤ instantMicros now) →
      ∀ p ∈ ps, instantMicros p.entered ≤ instantMicros p.exited) := by
  cases ts with
  | nil => exact absurd rfl hne
  | cons t0 rest =>
    obtain ⟨ft, ct, isEarlier, body, hft, hct, hlt, hbody, htrue, hfalse⟩ :=
      compute_decompose hok
    obtain ⟨b0, btl, hbcons, hb0e⟩ := statePeriodsFrom_head hbody
    have hb0ft : b0.entered = ft := by
      rw [hft] at hb0e
      exact (Option.some.inj hb0e).symm
    have hchainb := statePeriodsFrom_chain hbody
    obtain ⟨q, hql, hqx⟩ := statePeriodsFrom_last hbody (List.cons_ne_nil _ _)
    have horig : reconstruction_origin (t0 :: rest) cd
        = some (if isEarlier then ct else ft) := by
      simp only [reconstruction_origin, bind, hft, hct, hlt, Option.some_bind]
    cases isEarlier with
    | false =>
      have hps := hfalse rfl
      subst hps
      refine ⟨by rw [hbcons]; exact List.cons_ne_nil _ _, hchainb, ?_, ⟨q, hql, hqx⟩, ?_⟩
      · exact ⟨b0, btl, hbcons, by rw [horig, if_neg (by simp), hb0ft]⟩
      · intro hs hn
        exact statePeriodsFrom_monotone hbody hs hn
    | true =>
      obtain ⟨d, hps⟩ := htrue rfl
      subst hps
      refine ⟨List.cons_ne_nil _ _, ?_, ?_, ?_, ?_⟩
      · rw [List.chain'_cons']
        refine ⟨?_, hchainb⟩
        intro b hb
        rw [hbcons] at hb
        simp only [List.head?_cons, Option.mem_def, Option.some.injEq] at hb
        subst hb
        exact hb0ft.symm
      · exact ⟨_, body, rfl, by rw [horig, if_pos rfl]⟩
      · refine ⟨q, ?_, hqx⟩
        rw [hbcons, List.getLast?_cons_cons, ← hbcons]
        exact hql
      · intro hs hn p hp
        rcases List.mem_cons.1 hp with rfl | hpb
        · have hcd : (true : Bool) = decide (instantMicros ct < instantMicros ft) :=
            pyLt_eq_decide hlt
          have : instantMicros ct < instantMicros ft := by
            have := hcd.symm
            simpa using this
          exact le_of_lt this
        · exact statePeriodsFrom_monotone hbody hs hn p hpb

/-- C1 witness: a concrete two-transition reconstruction with a creation
instant two hours before the first transition. -/
theorem reconstruct_tiles_witness :
    ([⟨"2024-01-15T10:30:00+00:00", "To Do", "In Progress", "alice"⟩,
      ⟨"2024-01-15T12:00:00+00:00", "In Progress", "In Review", "bob"⟩]
        : List Transition) ≠ [] ∧
    compute_time_in_states
      [⟨"2024-01-15T10:30:00+00:00", "To Do", "In Progress", "alice"⟩,
       ⟨"2024-01-15T12:00:00+00:00", "In Progress", "In Review", "bob"⟩]
      (some "2024-01-15T08:30:00+00:00") ⟨2024, 1, 15, 14, 0, 0, 0, some 0⟩
      = some
        [⟨"To Do", ⟨2024, 1, 15, 8, 30, 0, 0, some 0⟩,
          ⟨2024, 1, 15, 10, 30, 0, 0, some 0⟩, 200⟩,
         ⟨"In Progress", ⟨2024, 1, 15, 10, 30, 0, 0, some 0⟩,
          ⟨2024, 1, 15, 12, 0, 0, 0, some 0⟩, 150⟩,
         ⟨"In Review", ⟨2024, 1, 15, 12, 0, 0, 0, some 0⟩,
          ⟨2024, 1, 15, 14, 0, 0, 0, some 0⟩, 200⟩] ∧
    ([⟨"To Do", ⟨2024, 1, 15, 8, 30, 0, 0, some 0⟩,
       ⟨2024, 1, 15, 10, 30, 0, 0, some 0⟩, 200⟩,
      ⟨"In Progress", ⟨2024, 1, 15, 10, 30, 0, 0, some 0⟩,
       ⟨2024, 1, 15, 12, 0, 0, 0, some 0⟩, 150⟩,
      ⟨"In Review", ⟨2024, 1, 15, 12, 0, 0, 0, some 0⟩,
       ⟨2024, 1, 15, 14, 0, 0, 0, some 0⟩, 200⟩] : List StatePeriod) ≠ [] ∧
    List.Chain' (fun a b : StatePeriod => a.exited = b.entered)
      [⟨"To Do", ⟨2024, 1, 15, 8, 30, 0, 0, some 0⟩,
        ⟨2024, 1, 15, 10, 30, 0, 0, some 0⟩, 200⟩,
       ⟨"In Progress", ⟨2024, 1, 15, 10, 30, 0, 0, some 0⟩,
        ⟨2024, 1, 15, 12, 0, 0, 0, some 0⟩, 150⟩,
       ⟨"In Review", ⟨2024, 1, 15, 12, 0, 0, 0, some 0⟩,
        ⟨2024, 1, 15, 14, 0, 0, 0, some 0⟩, 200⟩] := by
  refine ⟨by decide, by decide, ?_⟩
  have h := reconstruct_tiles
    [⟨"2024-01-15T10:30:00+00:00", "To Do", "In Progress", "alice"⟩,
     ⟨"2024-01-15T12:00:00+00:00", "In Progress", "In Review", "bob"⟩]
    (some "2024-01-15T08:30:00+00:00") ⟨2024, 1, 15, 14, 0, 0, 0, some 0⟩
    [⟨"To Do", ⟨2024, 1, 15, 8, 30, 0, 0, some 0⟩,
      ⟨2024, 1, 15, 10, 30, 0, 0, some 0⟩, 200⟩,
     ⟨"In Progress", ⟨2024, 1, 15, 10, 30, 0, 0, some 0⟩,
      ⟨2024, 1, 15, 12, 0, 0, 0, some 0⟩, 150⟩,
     ⟨"In Review", ⟨2024, 1, 15, 12, 0, 0, 0, some 0⟩,
      ⟨2024, 1, 15, 14, 0, 0, 0, some 0⟩, 200⟩]
    (by decide) (by decide)
  exact ⟨h.1, h.2.1⟩

/-- C4: on a non-empty transition list, a successful reconstruction has
exactly one period per transition — status `to_status`, `entered` the
transition's timestamp, `exited` the next transition's timestamp (or
`now` for the last) — preceded by one extra leading period (status =
first transition's `from_status`, from the creation instant to the first
transition) exactly when the resolved creation instant is strictly
earlier than the first transition's; with no creation instant the lead
never appears; nothing is filtered, so zero-duration periods are kept. -/
theorem reconstruct_period_structure (t0 : Transition) (rest : List Transition)
    (cd : Option String) (now : PyDateTime) (ps : List StatePeriod)
    (hok : compute_time_in_states (t0 :: rest) cd now = some ps) :
    ∃ ft ct isEarlier body,
      parse_timestamp t0.timestamp = some ft ∧
      creation_time_of cd ft = some ct ∧
      pyLt ct ft = some isEarlier ∧
      body.length = (t0 :: rest).length ∧
      (isEarlier = true → ∃ d, ps = ⟨t0.from_status, ct, ft, d⟩ :: body) ∧
      (isEarlier = false → ps = body) ∧
      (cd = none → isEarlier = false) ∧
      (∀ i (hi : i < (t0 :: rest).length) (hp : i < body.length),
        (body.get ⟨i, hp⟩).status = ((t0 :: rest).get ⟨i, hi⟩).to_status ∧
        parse_timestamp ((t0 :: rest).get ⟨i, hi⟩).timestamp
          = some (body.get ⟨i, hp⟩).entered ∧
        (∀ hj : i + 1 < (t0 :: rest).length,
          parse_timestamp ((t0 :: rest).get ⟨i + 1, hj⟩).timestamp
            = some (body.get ⟨i, hp⟩).exited) ∧
        (i + 1 = (t0 :: rest).length → (body.get ⟨i, hp⟩).exited = now)) := by
  obtain ⟨ft, ct, isEarlier, body, hft, hct, hlt, hbody, htrue, hfalse⟩ :=
    compute_decompose hok
  obtain ⟨hlen, hidx⟩ := statePeriodsFrom_spec hbody
  refine ⟨ft, ct, isEarlier, body, hft, hct, hlt, hlen, htrue, hfalse, ?_, ?_⟩
  · intro hcd
    subst hcd
    have hctft : ct = ft := by
      simp only [creation_time_of, Option.some.injEq] at hct
      exact hct.symm
    subst hctft
    rw [pyLt_self] at hlt
    exact (Option.some.inj hlt).symm
  · intro i hi hp
    exact hidx i hi hp

/-- C4 witness: two transitions sharing one timestamp (a zero-duration
period is kept) and no creation date. -/
theorem reconstruct_period_structure_witness :
    (∃ ft ct isEarlier body,
      parse_timestamp
        (Transition.mk "2024-03-01T09:00:00+00:00" "To Do" "In Progress" "a").timestamp
        = some ft ∧
      creation_time_of none ft = some ct ∧
      pyLt ct ft = some isEarlier ∧
      body.length = ([⟨"2024-03-01T09:00:00+00:00", "To Do", "In Progress", "a"⟩,
        ⟨"2024-03-01T09:00:00+00:00", "In Progress", "In Review", "a"⟩]
          : List Transition).length ∧
      (isEarlier = true → ∃ d,
        [⟨"In Progress", ⟨2024, 3, 1, 9, 0, 0, 0, some 0⟩,
          ⟨2024, 3, 1, 9, 0, 0, 0, some 0⟩, 0⟩,
         ⟨"In Review", ⟨2024, 3, 1, 9, 0, 0, 0, some 0⟩,
          ⟨2024, 3, 1, 10, 0, 0, 0, some 0⟩, 100⟩]
          = StatePeriod.mk "To Do" ct ft d :: body) ∧
      (isEarlier = false →
        [⟨"In Progress", ⟨2024, 3, 1, 9, 0, 0, 0, some 0⟩,
          ⟨2024, 3, 1, 9, 0, 0, 0, some 0⟩, 0⟩,
         ⟨"In Review", ⟨2024, 3, 1, 9, 0, 0, 0, some 0⟩,
          ⟨2024, 3, 1, 10, 0, 0, 0, some 0⟩, 100⟩] = body) ∧
      ((none : Option String) = none → isEarlier = false) ∧
      (∀ i (hi : i < ([⟨"2024-03-01T09:00:00+00:00", "To Do", "In Progress", "a"⟩,
          ⟨"2024-03-01T09:00:00+00:00", "In Progress", "In Review", "a"⟩]
            : List Transition).length) (hp : i < body.length),
        (body.get ⟨i, hp⟩).status
          = (([⟨"2024-03-01T09:00:00+00:00", "To Do", "In Progress", "a"⟩,
              ⟨"2024-03-01T09:00:00+00:00", "In Progress", "In Review", "a"⟩]
                : List Transition).get ⟨i, hi⟩).to_status ∧
        parse_timestamp (([⟨"2024-03-01T09:00:00+00:00", "To Do", "In Progress", "a"⟩,
            ⟨"2024-03-01T09:00:00+00:00", "In Progress", "In Review", "a"⟩]
              : List Transition).get ⟨i, hi⟩).timestamp
          = some (body.get ⟨i, hp⟩).entered ∧
        (∀ hj : i + 1 < ([⟨"2024-03-01T09:00:00+00:00", "To Do", "In Progress", "a"⟩,
            ⟨"2024-03-01T09:00:00+00:00", "In Progress", "In Review", "a"⟩]
              : List Transition).length,
          parse_timestamp (([⟨"2024-03-01T09:00:00+00:00", "To Do", "In Progress", "a"⟩,
              ⟨"2024-03-01T09:00:00+00:00", "In Progress", "In Review", "a"⟩]
                : List Transition).get ⟨i + 1, hj⟩).timestamp
            = some (body.get ⟨i, hp⟩).exited) ∧
        (i + 1 = ([⟨"2024-03-01T09:00:00+00:00", "To Do", "In Progress", "a"⟩,
            ⟨"2024-03-01T09:00:00+00:00", "In Progress", "In Review", "a"⟩]
              : List Transition).length → (body.get ⟨i, hp⟩).exited
          = ⟨2024, 3, 1, 10, 0, 0, 0, some 0⟩))) := by
  exact reconstruct_period_structure
    ⟨"2024-03-01T09:00:00+00:00", "To Do", "In Progress", "a"⟩
    [⟨"2024-03-01T09:00:00+00:00", "In Progress", "In Review", "a"⟩]
    none ⟨2024, 3, 1, 10, 0, 0, 0, some 0⟩
    [⟨"In Progress", ⟨2024, 3, 1, 9, 0, 0, 0, some 0⟩,
      ⟨2024, 3, 1, 9, 0, 0, 0, some 0⟩, 0⟩,
     ⟨"In Review", ⟨2024, 3, 1, 9, 0, 0, 0, some 0⟩,
      ⟨2024, 3, 1, 10, 0, 0, 0, some 0⟩, 100⟩]
    (by decide)

/-- C6: a transition whose timestamp cannot be parsed after
normalization makes `parse_timestamp` fail (the `MalformedTimestamp`
error), and the whole reconstruction for that ticket fails rather than
silently dropping the bad transition. -/
theorem malformed_timestamp_propagates (ts : List Transition)
    (cd : Option String) (now : PyDateTime) (t : Transition)
    (hmem : t ∈ ts)
    (hbad : fromisoformat (normalizeTimestampString t.timestamp) = none) :
    parse_timestamp t.timestamp = none ∧
    compute_time_in_states ts cd now = none := by
  refine ⟨hbad, ?_⟩
  cases hc : compute_time_in_states ts cd now with
  | none => rfl
  | some ps =>
    cases ts with
    | nil => cases hmem
    | cons t0 rest =>
      obtain ⟨ft, ct, isEarlier, body, hft, hct, hlt, hbody, _, _⟩ :=
        compute_decompose hc
      obtain ⟨dt, hdt⟩ := statePeriodsFrom_mem_parses hbody t hmem
      rw [parse_timestamp, hbad] at hdt
      cases hdt

/-- C6 witness: a malformed timestamp in the middle of a list. -/
theorem malformed_timestamp_propagates_witness :
    parse_timestamp "2024-13-40Tgarbage" = none ∧
    compute_time_in_states
      [⟨"2024-03-01T09:00:00+00:00", "To Do", "In Progress", "a"⟩,
       ⟨"2024-13-40Tgarbage", "In Progress", "In Review", "a"⟩]
      (some "2024-03-01T08:00:00+00:00") ⟨2024, 3, 1, 10, 0, 0, 0, some 0⟩
      = none :=
  malformed_timestamp_propagates
    [⟨"2024-03-01T09:00:00+00:00", "To Do", "In Progress", "a"⟩,
     ⟨"2024-13-40Tgarbage", "In Progress", "In Review", "a"⟩]
    (some "2024-03-01T08:00:00+00:00") ⟨2024, 3, 1, 10, 0, 0, 0, some 0⟩
    ⟨"2024-13-40Tgarbage", "In Progress", "In Review", "a"⟩
    (by decide) (by decide)

/-- C7: on an empty transition list the reconstructor returns an empty
list — for every creation-date argument, parseable or not — and the
detector returns an empty list. -/
theorem empty_transitions_empty_output (cd : Option String) (now : PyDateTime) :
    compute_time_in_states [] cd now = some [] ∧
    detect_bounce_backs [] = [] :=
  ⟨rfl, rfl⟩

/-- C10: an empty-string creation timestamp behaves exactly like an
absent one: it is never parsed, the computation agrees with the
`none` case, and no leading period is emitted (the output has exactly
one period per transition). -/
theorem empty_created_date_like_none (ts : List Transition)
    (now : PyDateTime) (ps : List StatePeriod) :
    compute_time_in_states ts (some "") now
      = compute_time_in_states ts none now ∧
    (compute_time_in_states ts (some "") now = some ps →
      ps.length = ts.length) := by
  have hcteq : creation_time_of (some "") = creation_time_of none := by
    funext ft
    simp [creation_time_of]
  constructor
  · cases ts with
    | nil => rfl
    | cons t0 rest => simp only [compute_time_in_states, hcteq]
  · intro hok
    cases ts with
    | nil =>
      simp only [compute_time_in_states, Option.some.injEq] at hok
      subst hok
      rfl
    | cons t0 rest =>
      obtain ⟨ft, ct, isEarlier, body, hft, hct, hlt, hbody, htrue, hfalse⟩ :=
        compute_decompose hok
      have hctft : ct = ft := by
        have h2 : creation_time_of (some "") ft = some ft := by
          simp [creation_time_of]
        rw [h2] at hct
        exact (Option.some.inj hct).symm
      subst hctft
      rw [pyLt_self] at hlt
      have hE : isEarlier = false := (Option.some.inj hlt).symm
      have hps := hfalse hE
      subst hps
      exact (statePeriodsFrom_spec hbody).1

/-- C10 witness: concrete one-transition list with the empty-string
creation date. -/
theorem empty_created_date_like_none_witness :
    compute_time_in_states
      [⟨"2024-03-01T09:00:00+00:00", "To Do", "In Progress", "a"⟩] (some "")
      ⟨2024, 3, 1, 10, 0, 0, 0, some 0⟩
      = compute_time_in_states
        [⟨"2024-03-01T09:00:00+00:00", "To Do", "In Progress", "a"⟩] none
        ⟨2024, 3, 1, 10, 0, 0, 0, some 0⟩ ∧
    ([⟨"In Progress", ⟨2024, 3, 1, 9, 0, 0, 0, some 0⟩,
        ⟨2024, 3, 1, 10, 0, 0, 0, some 0⟩, 100⟩] : List StatePeriod).length
      = ([⟨"2024-03-01T09:00:00+00:00", "To Do", "In Progress", "a"⟩]
          : List Transition).length :=
  ⟨(empty_created_date_like_none
      [⟨"2024-03-01T09:00:00+00:00", "To Do", "In Progress", "a"⟩]
      ⟨2024, 3, 1, 10, 0, 0, 0, some 0⟩
      [⟨"In Progress", ⟨2024, 3, 1, 9, 0, 0, 0, some 0⟩,
        ⟨2024, 3, 1, 10, 0, 0, 0, some 0⟩, 100⟩]).1,
   (empty_created_date_like_none
      [⟨"2024-03-01T09:00:00+00:00", "To Do", "In Progress", "a"⟩]
      ⟨2024, 3, 1, 10, 0, 0, 0, some 0⟩
      [⟨"In Progress", ⟨2024, 3, 1, 9, 0, 0, 0, some 0⟩,
        ⟨2024, 3, 1, 10, 0, 0, 0, some 0⟩, 100⟩]).2 (by decide)⟩

/-! ## Claim theorems: detector -/

/-- C2: a transition is emitted as a non-blocked bounce-back (the plain
event, `is_blocked = false`) iff its `from_status` classifies to a
forward position strictly greater than 0 and its `to_status` classifies
to a forward position (≥ 0) strictly below it; in particular a
transition with `from_status` at position 0, or with either side
unclassified (index -1), is never flagged as a non-blocked
bounce-back. -/
theorem detect_nonblocked_iff (ts : List Transition) (t : Transition) :
    ((⟨t, false⟩ : BounceBackEvent) ∈ detect_bounce_backs ts ↔
      t ∈ ts ∧ _workflow_index t.from_status > 0 ∧
        _workflow_index t.to_status ≥ 0 ∧
        _workflow_index t.to_status < _workflow_index t.from_status) ∧
    (_workflow_index t.from_status = 0 →
      (⟨t, false⟩ : BounceBackEvent) ∉ detect_bounce_backs ts) ∧
    ((_workflow_index t.from_status = -1 ∨ _workflow_index t.to_status = -1) →
      (⟨t, false⟩ : BounceBackEvent) ∉ detect_bounce_backs ts) := by
  have h0 : (⟨t, false⟩ : BounceBackEvent) ∈ detect_bounce_backs ts ↔
      t ∈ ts ∧ bounceCond t := by
    rw [mem_detect_iff]
    simp
  refine ⟨h0, ?_, ?_⟩
  · intro hz hmem
    obtain ⟨_, h1, _, _⟩ := h0.1 hmem
    omega
  · intro hcase hmem
    obtain ⟨_, h1, h2, _⟩ := h0.1 hmem
    rcases hcase with hc | hc <;> omega

/-- C2 witness: In Review → In Progress is flagged; To Do → weird is
not. -/
theorem detect_nonblocked_iff_witness :
    ((⟨⟨"t3", "In Review", "In Progress", "a"⟩, false⟩ : BounceBackEvent)
      ∈ detect_bounce_backs [⟨"t3", "In Review", "In Progress", "a"⟩]) ∧
    ((⟨⟨"t4", "weird", "To Do", "a"⟩, false⟩ : BounceBackEvent)
      ∉ detect_bounce_backs [⟨"t4", "weird", "To Do", "a"⟩]) :=
  ⟨(detect_nonblocked_iff [⟨"t3", "In Review", "In Progress", "a"⟩]
      ⟨"t3", "In Review", "In Progress", "a"⟩).1.mpr (by decide),
   (detect_nonblocked_iff [⟨"t4", "weird", "To Do", "a"⟩]
      ⟨"t4", "weird", "To Do", "a"⟩).2.2 (by decide)⟩

/-- C3: a transition whose `to_status` (trimmed, lowercased) is in the
blocked set always yields a copy with `is_blocked = true`, regardless of
workflow direction; and the per-transition emission is the concatenation
of the independent bounce-back and blocked singleton emissions, so a
transition satisfying both conditions would yield two separate events,
never a merged one. -/
theorem detect_blocked_always (ts : List Transition) (t : Transition) :
    (t ∈ ts → blockedCond t →
      (⟨t, true⟩ : BounceBackEvent) ∈ detect_bounce_backs ts) ∧
    (∀ rest, detect_bounce_backs (t :: rest)
        = (if bounceCond t then [⟨t, false⟩] else [])
          ++ (if blockedCond t then [⟨t, true⟩] else [])
          ++ detect_bounce_backs rest) ∧
    ((detect_bounce_backs [t]).length
        = (if bounceCond t then 1 else 0)
          + (if blockedCond t then 1 else 0)) := by
  refine ⟨?_, detect_cons t, ?_⟩
  · intro hmem hbl
    exact (mem_detect_iff ts ⟨t, true⟩).2 ⟨hmem, Or.inr ⟨rfl, hbl⟩⟩
  · rw [detect_cons t []]
    by_cases hb : bounceCond t <;> by_cases hbl : blockedCond t <;>
      simp [hb, hbl, detect_bounce_backs]

/-- C3 witness: To Do → Blocked (a forward-position-0 origin) is still
reported as a blocked event. -/
theorem detect_blocked_always_witness :
    (⟨⟨"t1", "To Do", " BLOCKED ", "a"⟩, true⟩ : BounceBackEvent)
      ∈ detect_bounce_backs [⟨"t1", "To Do", " BLOCKED ", "a"⟩] :=
  (detect_blocked_always [⟨"t1", "To Do", " BLOCKED ", "a"⟩]
    ⟨"t1", "To Do", " BLOCKED ", "a"⟩).1 (by decide) (by decide)

/-! ## Claim theorems: timestamp normalization -/

theorem pyReplaceZ_append (s t : String) :
    pyReplaceZ (s ++ t) = pyReplaceZ s ++ pyReplaceZ t := by
  simp only [pyReplaceZ, String.data_append, List.flatMap_append]
  rfl

theorem endsWith_append_0000 (x : String) :
    endsWithOffsetNoColon (x ++ "+0000") = true := by
  unfold endsWithOffsetNoColon
  rw [String.data_append, show ("+0000".data) = ['+', '0', '0', '0', '0'] from rfl,
    List.reverse_append,
    show (['+', '0', '0', '0', '0'] : List Char).reverse = ['0', '0', '0', '0', '+'] from rfl]
  rfl

theorem endsWith_append_colon (x : String) :
    endsWithOffsetNoColon (x ++ "+00:00") = false := by
  unfold endsWithOffsetNoColon
  rw [String.data_append, show ("+00:00".data) = ['+', '0', '0', ':', '0', '0'] from rfl,
    List.reverse_append,
    show (['+', '0', '0', ':', '0', '0'] : List Char).reverse
      = ['0', '0', ':', '0', '0', '+'] from rfl]
  rfl

theorem insertOffsetColon_append_0000 (x : String) :
    insertOffsetColon (x ++ "+0000") = x ++ "+00:00" := by
  unfold insertOffsetColon
  rw [String.data_append, show ("+0000".data) = ['+', '0', '0', '0', '0'] from rfl]
  have hlen : (x.data ++ ['+', '0', '0', '0', '0']).length - 2 = x.data.length + 3 := by
    simp
  rw [hlen, List.take_append 3, List.drop_append 3,
    show List.take 3 (['+', '0', '0', '0', '0'] : List Char) = ['+', '0', '0'] from rfl,
    show List.drop 3 (['+', '0', '0', '0', '0'] : List Char) = ['0', '0'] from rfl]
  have hr : x ++ "+00:00" = String.mk (x.data ++ ['+', '0', '0', ':', '0', '0']) := rfl
  rw [hr]
  exact congrArg String.mk (by simp)

/-- C5: the trailing-`Z` and colon-less four-digit-offset spellings of
one instant parse equal: the two concrete forms from the spec yield the
same (defined) instant, and for every string the `+0000` and `+00:00`
suffix spellings parse to equal values, because the normalizer rewrites
the former into the latter. -/
theorem parse_timestamp_offset_forms_agree :
    (parse_timestamp "2024-01-15T10:30:00.000+0000"
        = parse_timestamp "2024-01-15T10:30:00.000Z" ∧
      (parse_timestamp "2024-01-15T10:30:00.000+0000").isSome = true) ∧
    ∀ s : String,
      parse_timestamp (s ++ "+0000") = parse_timestamp (s ++ "+00:00") := by
  refine ⟨⟨by decide, by decide⟩, fun s => ?_⟩
  have h1 : normalizeTimestampString (s ++ "+0000") = pyReplaceZ s ++ "+00:00" := by
    unfold normalizeTimestampString
    rw [pyReplaceZ_append, show pyReplaceZ "+0000" = "+0000" from rfl]
    show (if endsWithOffsetNoColon (pyReplaceZ s ++ "+0000") = true
        then insertOffsetColon (pyReplaceZ s ++ "+0000")
        else pyReplaceZ s ++ "+0000") = pyReplaceZ s ++ "+00:00"
    rw [endsWith_append_0000, if_pos rfl, insertOffsetColon_append_0000]
  have h2 : normalizeTimestampString (s ++ "+00:00") = pyReplaceZ s ++ "+00:00" := by
    unfold normalizeTimestampString
    rw [pyReplaceZ_append, show pyReplaceZ "+00:00" = "+00:00" from rfl]
    show (if endsWithOffsetNoColon (pyReplaceZ s ++ "+00:00") = true
        then insertOffsetColon (pyReplaceZ s ++ "+00:00")
        else pyReplaceZ s ++ "+00:00") = pyReplaceZ s ++ "+00:00"
    rw [endsWith_append_colon, if_neg (by simp)]
  unfold parse_timestamp
  rw [h1, h2]

/-! ## Changelog extraction (`jira_client.py` lines 78-99)

`extract_status_transitions` walks the changelog histories in order,
keeps the items whose changed field is `"status"`, builds transition
dicts, and then calls `transitions.sort(key=lambda t: t["timestamp"])`.
CPython's `list.sort` is a stable sort comparing the key strings, so it
is embedded as a stable merge sort by the `timestamp` field. -/

/-- One entry of a history's `items` array (the fields the source
reads). -/
structure ChangelogItem where
  field : String
  fromString : String
  toString : String
deriving DecidableEq, Repr

/-- One changelog history: `created` timestamp, optional author display
name (`None`/missing collapses to `"Unknown"`), and its items. -/
structure ChangelogHistory where
  created : String
  author : Option String
  items : List ChangelogItem
deriving DecidableEq, Repr

/-- The transition list in changelog order, before sorting (the loop of
lines 85-96). -/
def raw_status_transitions (changelog : List ChangelogHistory) : List Transition :=
  changelog.flatMap (fun history =>
    (history.items.filter (fun item => item.field = "status")).map (fun item =>
      { timestamp := history.created
        from_status := item.fromString
        to_status := item.toString
        author := history.author.getD "Unknown" }))

/-- Source `jira_client.py` lines 78-99. -/
def extract_status_transitions (changelog : List ChangelogHistory) : List Transition :=
  (raw_status_transitions changelog).mergeSort
    (fun a b => a.timestamp ≤ b.timestamp)

theorem timestamp_le_trans : ∀ a b c : Transition,
    (decide (a.timestamp ≤ b.timestamp)) = true →
    (decide (b.timestamp ≤ c.timestamp)) = true →
    (decide (a.timestamp ≤ c.timestamp)) = true := by
  intro a b c h1 h2
  simp only [decide_eq_true_eq] at h1 h2 ⊢
  exact le_trans h1 h2

theorem timestamp_le_total : ∀ a b : Transition,
    ((decide (a.timestamp ≤ b.timestamp)) || (decide (b.timestamp ≤ a.timestamp))) = true := by
  intro a b
  simp only [Bool.or_eq_true, decide_eq_true_eq]
  exact le_total a.timestamp b.timestamp

/-- C8: the transition list handed to the detector and reconstructor is
sorted non-decreasing by the `timestamp` field, it is a permutation of
the transitions read off the changelog in order (nothing added or
dropped), and the sort is stable: transitions with equal timestamps keep
their original relative order. -/
theorem extract_transitions_sorted_stable (changelog : List ChangelogHistory) :
    List.Pairwise (fun a b : Transition => a.timestamp ≤ b.timestamp)
      (extract_status_transitions changelog) ∧
    (extract_status_transitions changelog).Perm (raw_status_transitions changelog) ∧
    ∀ s : String,
      (extract_status_transitions changelog).filter (fun t => t.timestamp = s)
        = (raw_status_transitions changelog).filter (fun t => t.timestamp = s) := by
  refine ⟨?_, List.mergeSort_perm _ _, ?_⟩
  · have h := List.sorted_mergeSort timestamp_le_trans timestamp_le_total
      (raw_status_transitions changelog)
    exact h.imp (fun hab => by simpa using hab)
  · intro s
    set raw := raw_status_transitions changelog with hraw
    set p : Transition → Bool := fun t => t.timestamp = s with hp
    have hall : ∀ x ∈ raw.filter p, x.timestamp = s := by
      intro x hx
      have := List.of_mem_filter hx
      simpa [hp] using this
    have hpw : List.Pairwise
        (fun a b : Transition => (decide (a.timestamp ≤ b.timestamp)) = true)
        (raw.filter p) :=
      List.pairwise_of_forall_mem_list (fun a ha b hb => by
        simp only [decide_eq_true_eq, hall a ha, hall b hb]
        exact le_refl s)
    have hsub : List.Sublist (raw.filter p)
        (raw.mergeSort (fun a b => a.timestamp ≤ b.timestamp)) :=
      List.sublist_mergeSort timestamp_le_trans timestamp_le_total hpw
        (List.filter_sublist raw)
    have hsub2 : List.Sublist (raw.filter p)
        ((raw.mergeSort (fun a b => a.timestamp ≤ b.timestamp)).filter p) := by
      have h2 := hsub.filter p
      have h3 : (raw.filter p).filter p = raw.filter p :=
        List.filter_eq_self.mpr (fun a ha => List.of_mem_filter ha)
      rwa [h3] at h2
    have hperm : ((raw.mergeSort (fun a b => a.timestamp ≤ b.timestamp)).filter p).Perm
        (raw.filter p) := (List.mergeSort_perm raw _).filter p
    exact (hsub2.eq_of_length hperm.length_eq.symm).symm

/-! ## Testim reference extraction (`utils.py` lines 147-168)

The three `_TESTIM_PATTERNS` regexes (all `re.IGNORECASE`) are embedded
as executable matchers that, at a given position, return the length of
the match the backtracking engine would produce there, or `none`:

* `https?://[^\s]*testim[^\s]*` — an `http(s)://` prefix whose maximal
  non-whitespace run contains `testim`; the greedy `[^\s]*` pieces always
  extend the match to the end of that run.
* `testim[:\s]+[\w\-]+` — the separator class `[:\s]` and the word class
  `[\w\-]` are disjoint, so both `+` repetitions are maximal munches.
* `test(?:im)?[\s\-_]*(?:id|name|link|url|ref)[\s:]+[\w\-\/]+` — the
  engine tries `im` first, separator runs longest-first, and the
  alternation left-to-right; the trailing two classes are disjoint
  maximal munches.

`findall` scans left to right, taking the leftmost match and resuming
after it (non-overlapping), like `re.findall` with no capture groups.
Case-insensitive comparisons go through `Char.toLower` (ASCII, like the
status strings); `\w` is modelled as ASCII `[a-zA-Z0-9_]`. -/

/-- Case-insensitive literal match: `pat` is lowercase; returns the rest
of the text after the literal. -/
def matchLitCI : List Char → List Char → Option (List Char)
  | [], cs => some cs
  | p :: ps, c :: cs => if c.toLower = p then matchLitCI ps cs else none
  | _ :: _, [] => none

def startsWithCI (pat : List Char) (cs : List Char) : Bool :=
  (matchLitCI pat cs).isSome

/-- True when `pat` occurs (case-insensitively) somewhere in `cs`. -/
def containsCI (pat : List Char) (cs : List Char) : Bool :=
  cs.tails.any (startsWithCI pat)

/-- Python regex `\w` (ASCII `[A-Za-z0-9_]`, by code point). -/
def isWordChar (c : Char) : Bool :=
  decide ((65 ≤ c.toNat ∧ c.toNat ≤ 90) ∨ (97 ≤ c.toNat ∧ c.toNat ≤ 122) ∨
    (48 ≤ c.toNat ∧ c.toNat ≤ 57) ∨ c.toNat = 95)

/-- Pattern `https?://[^\s]*testim[^\s]*` at the start of `cs`. -/
def matchP1 (cs : List Char) : Option Nat :=
  let tail := fun (r : List Char) (pre : Nat) =>
    let run := r.takeWhile (fun c => !pyIsSpace c)
    if containsCI "testim".data run then some (pre + run.length) else none
  match matchLitCI "https://".data cs with
  | some r => tail r 8
  | none =>
    match matchLitCI "http://".data cs with
    | some r => tail r 7
    | none => none

/-- Pattern `testim[:\s]+[\w\-]+` at the start of `cs`. -/
def matchP2 (cs : List Char) : Option Nat :=
  match matchLitCI "testim".data cs with
  | none => none
  | some r =>
    let sep := r.takeWhile (fun c => c = ':' || pyIsSpace c)
    if sep.isEmpty then none
    else
      let w := (r.drop sep.length).takeWhile (fun c => isWordChar c || c = '-')
      if w.isEmpty then none else some (6 + sep.length + w.length)

/-- One alternation branch of pattern 3: `kw[\s:]+[\w\-\/]+` at `q`. -/
def p3KwAttempt (kw : List Char) (q : List Char) : Option Nat :=
  match matchLitCI kw q with
  | none => none
  | some q2 =>
    let t := q2.takeWhile (fun c => pyIsSpace c || c = ':')
    if t.isEmpty then none
    else
      let w := (q2.drop t.length).takeWhile
        (fun c => isWordChar c || c = '-' || c = '/')
      if w.isEmpty then none else some (kw.length + t.length + w.length)

/-- The alternation `(?:id|name|link|url|ref)` tried left to right. -/
def p3AfterSep (q : List Char) : Option Nat :=
  match p3KwAttempt "id".data q with
  | some n => some n
  | none =>
    match p3KwAttempt "name".data q with
    | some n => some n
    | none =>
      match p3KwAttempt "link".data q with
      | some n => some n
      | none =>
        match p3KwAttempt "url".data q with
        | some n => some n
        | none => p3KwAttempt "ref".data q

/-- Greedy `[\s\-_]*`: try separator length `k` first, then shorter. -/
def p3SepSearch (p : List Char) : Nat → Option Nat
  | 0 => p3AfterSep p
  | k + 1 =>
    match p3AfterSep (p.drop (k + 1)) with
    | some m => some (k + 1 + m)
    | none => p3SepSearch p k

/-- Pattern `[\s\-_]*(?:id|name|link|url|ref)[\s:]+[\w\-\/]+` at `r`. -/
def p3Tail (r : List Char) : Option Nat :=
  p3SepSearch r
    ((r.takeWhile (fun c => pyIsSpace c || c = '-' || c = '_')).length)

/-- Pattern `test(?:im)?[\s\-_]*(?:id|name|link|url|ref)[\s:]+[\w\-\/]+` at the
start of `cs` (`im` tried first, as the greedy engine does). -/
def matchP3 (cs : List Char) : Option Nat :=
  match matchLitCI "test".data cs with
  | none => none
  | some r0 =>
    match matchLitCI "im".data r0 with
    | some r1 =>
      (match p3Tail r1 with
       | some m => some (6 + m)
       | none =>
         match p3Tail r0 with
         | some m => some (4 + m)
         | none => none)
    | none =>
      match p3Tail r0 with
      | some m => some (4 + m)
      | none => none

/-- Source `utils.py` lines 147-151: the three Testim regexes. -/
def _TESTIM_PATTERNS : List (List Char → Option Nat) :=
  [matchP1, matchP2, matchP3]

/-- Python `re.findall` scan: leftmost matches, non-overlapping, resuming after
each match; the fuel is the list length (every step consumes at least
one character, since no pattern matches the empty string). -/
def findallScan (m : List Char → Option Nat) : Nat → List Char → List (List Char)
  | 0, _ => []
  | _ + 1, [] => []
  | fuel + 1, c :: rest =>
    match m (c :: rest) with
    | some n =>
      if n = 0 then findallScan m fuel rest
      else (c :: rest).take n :: findallScan m fuel ((c :: rest).drop n)
    | none => findallScan m fuel rest

def findall (m : List Char → Option Nat) (s : String) : List String :=
  (findallScan m (s.data.length + 1) s.data).map String.mk

/-- Python `list(dict.fromkeys(...))`: first-occurrence-order deduplication,
written with the seen-set accumulator the dict builds up. -/
def pyDedupGo (seen : List String) : List String → List String
  | [] => []
  | x :: rest =>
    if x ∈ seen then pyDedupGo seen rest
    else x :: pyDedupGo (x :: seen) rest

def pyDedup (l : List String) : List String := pyDedupGo [] l

/-- The matches one text contributes (`utils.py` lines 161-165): skipped
entirely if the text is falsy, otherwise all three patterns' `findall`
results in pattern order. -/
def textTestimMatches (text : String) : List String :=
  if text = "" then []
  else _TESTIM_PATTERNS.flatMap (fun pattern => findall pattern text)

/-- The concatenated scan: description first, then comments in order. -/
def rawTestimMatches (description_text : String) (comments : List String) :
    List String :=
  ([description_text] ++ comments).flatMap textTestimMatches

/-- Source `utils.py` lines 154-168. -/
def find_testim_references (description_text : String) (comments : List String) :
    List String :=
  pyDedup (rawTestimMatches description_text comments)

/-! ## Case-insensitivity of the matchers

`re.IGNORECASE` matching is embedded through `Char.toLower`; the lemmas
below show each matcher is invariant under lowercasing its input text
(same match positions and lengths). -/

theorem toLower_toNat (c : Char) :
    c.toLower.toNat
      = if 65 ≤ c.toNat ∧ c.toNat ≤ 90 then c.toNat + 32 else c.toNat := by
  simp only [Char.toLower]
  by_cases h : c.toNat ≥ 65 ∧ c.toNat ≤ 90
  · rw [if_pos h, if_pos ⟨h.1, h.2⟩]
    unfold Char.ofNat
    rw [dif_pos (by unfold Nat.isValidChar; omega)]
    rfl
  · rw [if_neg h, if_neg (fun hc => h ⟨hc.1, hc.2⟩)]

theorem toLower_idem (c : Char) : c.toLower.toLower = c.toLower := by
  simp only [Char.toLower]
  by_cases h : c.toNat ≥ 65 ∧ c.toNat ≤ 90
  · rw [if_pos h]
    have htn : (Char.ofNat (c.toNat + 32)).toNat = c.toNat + 32 := by
      unfold Char.ofNat
      rw [dif_pos (by unfold Nat.isValidChar; omega)]
      rfl
    rw [htn, if_neg (by omega)]
  · rw [if_neg h, if_neg h]

theorem char_eq_of_toNat_eq {a b : Char} (h : a.toNat = b.toNat) : a = b :=
  Char.ext (UInt32.ext h)

/-- Lowercasing fixes every character outside `A`-`Z`. -/
theorem toLower_of_not_upper {c : Char} (h : ¬(65 ≤ c.toNat ∧ c.toNat ≤ 90)) :
    c.toLower = c := by
  have h2 := toLower_toNat c
  rw [if_neg h] at h2
  exact char_eq_of_toNat_eq h2

/-- Comparing against a non-letter character is unaffected by
lowercasing. -/
theorem toLower_eq_nonletter {d : Char}
    (hd1 : ¬(65 ≤ d.toNat ∧ d.toNat ≤ 90))
    (hd2 : ¬(97 ≤ d.toNat ∧ d.toNat ≤ 122)) (c : Char) :
    (c.toLower = d) ↔ (c = d) := by
  by_cases h : 65 ≤ c.toNat ∧ c.toNat ≤ 90
  · constructor
    · intro he
      have h1 := congrArg Char.toNat he
      rw [toLower_toNat, if_pos h] at h1
      omega
    · intro he
      subst he
      exact absurd h hd1
  · rw [toLower_of_not_upper h]

/-- Predicate `pyIsSpace` is invariant under lowercasing. -/
theorem pyIsSpace_toLower (c : Char) : pyIsSpace c.toLower = pyIsSpace c := by
  unfold pyIsSpace
  rw [decide_eq_decide, toLower_toNat]
  by_cases h : 65 ≤ c.toNat ∧ c.toNat ≤ 90
  · rw [if_pos h]
    omega
  · rw [if_neg h]

/-- Predicate `isWordChar` is invariant under lowercasing. -/
theorem isWordChar_toLower (c : Char) : isWordChar c.toLower = isWordChar c := by
  unfold isWordChar
  rw [decide_eq_decide, toLower_toNat]
  by_cases h : 65 ≤ c.toNat ∧ c.toNat ≤ 90
  · rw [if_pos h]
    omega
  · rw [if_neg h]

/-- Decidable-equality form of `toLower_eq_nonletter`. -/
theorem beq_toLower_nonletter (d : Char)
    (hd1 : ¬(65 ≤ d.toNat ∧ d.toNat ≤ 90))
    (hd2 : ¬(97 ≤ d.toNat ∧ d.toNat ≤ 122)) (c : Char) :
    decide (c.toLower = d) = decide (c = d) := by
  rw [decide_eq_decide]
  exact toLower_eq_nonletter hd1 hd2 c

theorem matchLitCI_map (pat : List Char) :
    ∀ cs : List Char, matchLitCI pat (cs.map Char.toLower)
      = (matchLitCI pat cs).map (List.map Char.toLower) := by
  induction pat with
  | nil => intro cs; rfl
  | cons p ps ih =>
    intro cs
    cases cs with
    | nil => rfl
    | cons c cs2 =>
      simp only [List.map_cons, matchLitCI, toLower_idem]
      by_cases h : c.toLower = p
      · rw [if_pos h, if_pos h]
        exact ih cs2
      · rw [if_neg h, if_neg h]
        rfl

theorem startsWithCI_map (pat cs : List Char) :
    startsWithCI pat (cs.map Char.toLower) = startsWithCI pat cs := by
  unfold startsWithCI
  rw [matchLitCI_map]
  cases matchLitCI pat cs <;> rfl

theorem takeWhile_map_inv {p : Char → Bool} (hp : ∀ c, p c.toLower = p c)
    (cs : List Char) :
    (cs.map Char.toLower).takeWhile p = (cs.takeWhile p).map Char.toLower := by
  have hcomp : (p ∘ Char.toLower) = p := funext hp
  rw [List.takeWhile_map, hcomp]

theorem isEmpty_map {α β : Type} (f : α → β) (l : List α) :
    (l.map f).isEmpty = l.isEmpty := by
  cases l <;> rfl

theorem containsCI_map (pat cs : List Char) :
    containsCI pat (cs.map Char.toLower) = containsCI pat cs := by
  unfold containsCI
  rw [List.map_tails, List.any_map]
  congr 1
  funext t
  exact startsWithCI_map pat t

/-- The predicate of the `[^\s]*` run. -/
theorem notspace_inv (c : Char) : (!pyIsSpace c.toLower) = (!pyIsSpace c) := by
  rw [pyIsSpace_toLower]

theorem matchP1_map (cs : List Char) :
    matchP1 (cs.map Char.toLower) = matchP1 cs := by
  unfold matchP1
  rw [matchLitCI_map, matchLitCI_map]
  cases h8 : matchLitCI "https://".data cs with
  | some r =>
    simp only [Option.map_some']
    rw [takeWhile_map_inv notspace_inv, containsCI_map, List.length_map]
  | none =>
    simp only [Option.map_none']
    cases h7 : matchLitCI "http://".data cs with
    | some r =>
      simp only [Option.map_some']
      rw [takeWhile_map_inv notspace_inv, containsCI_map, List.length_map]
    | none => rfl

theorem sepP2_inv (c : Char) :
    (decide (c.toLower = ':') || pyIsSpace c.toLower)
      = (decide (c = ':') || pyIsSpace c) := by
  rw [beq_toLower_nonletter ':' (by decide) (by decide), pyIsSpace_toLower]

theorem wordDashP2_inv (c : Char) :
    (isWordChar c.toLower || decide (c.toLower = '-'))
      = (isWordChar c || decide (c = '-')) := by
  rw [beq_toLower_nonletter '-' (by decide) (by decide), isWordChar_toLower]

theorem matchP2_map (cs : List Char) :
    matchP2 (cs.map Char.toLower) = matchP2 cs := by
  unfold matchP2
  rw [matchLitCI_map]
  cases h : matchLitCI "testim".data cs with
  | none => rfl
  | some r =>
    simp only [Option.map_some']
    rw [takeWhile_map_inv sepP2_inv, isEmpty_map, List.length_map,
      ← List.map_drop, takeWhile_map_inv wordDashP2_inv, isEmpty_map,
      List.length_map]

theorem sepWordP3_inv (c : Char) :
    (pyIsSpace c.toLower || decide (c.toLower = ':'))
      = (pyIsSpace c || decide (c = ':')) := by
  rw [beq_toLower_nonletter ':' (by decide) (by decide), pyIsSpace_toLower]

theorem wordP3_inv (c : Char) :
    (isWordChar c.toLower || decide (c.toLower = '-') || decide (c.toLower = '/'))
      = (isWordChar c || decide (c = '-') || decide (c = '/')) := by
  rw [beq_toLower_nonletter '-' (by decide) (by decide),
    beq_toLower_nonletter '/' (by decide) (by decide), isWordChar_toLower]

theorem sepClassP3_inv (c : Char) :
    (pyIsSpace c.toLower || decide (c.toLower = '-') || decide (c.toLower = '_'))
      = (pyIsSpace c || decide (c = '-') || decide (c = '_')) := by
  rw [beq_toLower_nonletter '-' (by decide) (by decide),
    beq_toLower_nonletter '_' (by decide) (by decide), pyIsSpace_toLower]

theorem p3KwAttempt_map (kw cs : List Char) :
    p3KwAttempt kw (cs.map Char.toLower) = p3KwAttempt kw cs := by
  unfold p3KwAttempt
  rw [matchLitCI_map]
  cases h : matchLitCI kw cs with
  | none => rfl
  | some q2 =>
    simp only [Option.map_some']
    rw [takeWhile_map_inv sepWordP3_inv, isEmpty_map, List.length_map,
      ← List.map_drop, takeWhile_map_inv wordP3_inv, isEmpty_map,
      List.length_map]

theorem p3AfterSep_map (cs : List Char) :
    p3AfterSep (cs.map Char.toLower) = p3AfterSep cs := by
  unfold p3AfterSep
  rw [p3KwAttempt_map, p3KwAttempt_map, p3KwAttempt_map, p3KwAttempt_map,
    p3KwAttempt_map]

theorem p3SepSearch_map (cs : List Char) :
    ∀ k, p3SepSearch (cs.map Char.toLower) k = p3SepSearch cs k := by
  intro k
  induction k with
  | zero => exact p3AfterSep_map cs
  | succ k ih =>
    simp only [p3SepSearch]
    rw [← List.map_drop, p3AfterSep_map]
    cases p3AfterSep (cs.drop (k + 1)) with
    | some m => rfl
    | none => exact ih

theorem p3Tail_map (cs : List Char) :
    p3Tail (cs.map Char.toLower) = p3Tail cs := by
  unfold p3Tail
  rw [takeWhile_map_inv sepClassP3_inv, List.length_map, p3SepSearch_map]

theorem matchP3_map (cs : List Char) :
    matchP3 (cs.map Char.toLower) = matchP3 cs := by
  unfold matchP3
  rw [matchLitCI_map]
  cases h4 : matchLitCI "test".data cs with
  | none => rfl
  | some r0 =>
    simp only [Option.map_some']
    rw [matchLitCI_map]
    cases h2 : matchLitCI "im".data r0 with
    | none =>
      simp only [Option.map_none']
      rw [p3Tail_map]
    | some r1 =>
      simp only [Option.map_some']
      rw [p3Tail_map, p3Tail_map]

/-! ## First-occurrence deduplication -/

theorem mem_pyDedupGo (a : String) :
    ∀ (l seen : List String), a ∈ pyDedupGo seen l ↔ a ∈ l ∧ a ∉ seen := by
  intro l
  induction l with
  | nil => intro seen; simp [pyDedupGo]
  | cons x rest ih =>
    intro seen
    by_cases hx : x ∈ seen
    · rw [pyDedupGo, if_pos hx, ih]
      constructor
      · rintro ⟨h1, h2⟩
        exact ⟨List.mem_cons_of_mem _ h1, h2⟩
      · rintro ⟨h1, h2⟩
        rcases List.mem_cons.1 h1 with rfl | h1b
        · exact absurd hx h2
        · exact ⟨h1b, h2⟩
    · rw [pyDedupGo, if_neg hx]
      constructor
      · intro h
        rcases List.mem_cons.1 h with rfl | hb
        · exact ⟨List.mem_cons_self .., hx⟩
        · obtain ⟨h1, h2⟩ := (ih (x :: seen)).1 hb
          exact ⟨List.mem_cons_of_mem _ h1,
            fun hs => h2 (List.mem_cons_of_mem _ hs)⟩
      · rintro ⟨h1, h2⟩
        by_cases hax : a = x
        · subst hax
          exact List.mem_cons_self ..
        · rcases List.mem_cons.1 h1 with rfl | h1b
          · exact absurd rfl hax
          · refine List.mem_cons_of_mem _ ((ih (x :: seen)).2 ⟨h1b, ?_⟩)
            intro hs
            rcases List.mem_cons.1 hs with h | h
            · exact hax h
            · exact h2 h

theorem nodup_pyDedupGo : ∀ (l seen : List String), (pyDedupGo seen l).Nodup := by
  intro l
  induction l with
  | nil => intro seen; exact List.nodup_nil
  | cons x rest ih =>
    intro seen
    by_cases hx : x ∈ seen
    · rw [pyDedupGo, if_pos hx]
      exact ih seen
    · rw [pyDedupGo, if_neg hx, List.nodup_cons]
      refine ⟨?_, ih (x :: seen)⟩
      intro hmem
      obtain ⟨_, h2⟩ := (mem_pyDedupGo x rest (x :: seen)).1 hmem
      exact h2 (List.mem_cons_self ..)

/-- The dedup output lists elements in order of their first occurrence:
positions in the output are ordered by (first) index in the input. -/
theorem pyDedupGo_pairwise : ∀ (l seen : List String),
    List.Pairwise (fun a b => List.indexOf a l < List.indexOf b l)
      (pyDedupGo seen l) := by
  intro l
  induction l with
  | nil => intro seen; exact List.Pairwise.nil
  | cons x rest ih =>
    intro seen
    by_cases hx : x ∈ seen
    · rw [pyDedupGo, if_pos hx]
      refine List.Pairwise.imp_of_mem ?_ (ih seen)
      intro a b ha hb hab
      obtain ⟨_, ha2⟩ := (mem_pyDedupGo a rest seen).1 ha
      obtain ⟨_, hb2⟩ := (mem_pyDedupGo b rest seen).1 hb
      have hax : x ≠ a := fun h => ha2 (h ▸ hx)
      have hbx : x ≠ b := fun h => hb2 (h ▸ hx)
      rw [List.indexOf_cons_ne _ hax, List.indexOf_cons_ne _ hbx]
      exact Nat.succ_lt_succ hab
    · rw [pyDedupGo, if_neg hx, List.pairwise_cons]
      constructor
      · intro b hb
        obtain ⟨_, hb2⟩ := (mem_pyDedupGo b rest (x :: seen)).1 hb
        have hbx : x ≠ b := fun h => hb2 (h ▸ List.mem_cons_self ..)
        rw [List.indexOf_cons_self, List.indexOf_cons_ne _ hbx]
        exact Nat.succ_pos _
      · refine List.Pairwise.imp_of_mem ?_ (ih (x :: seen))
        intro a b ha hb hab
        obtain ⟨_, ha2⟩ := (mem_pyDedupGo a rest (x :: seen)).1 ha
        obtain ⟨_, hb2⟩ := (mem_pyDedupGo b rest (x :: seen)).1 hb
        have hax : x ≠ a := fun h => ha2 (h ▸ List.mem_cons_self ..)
        have hbx : x ≠ b := fun h => hb2 (h ▸ List.mem_cons_self ..)
        rw [List.indexOf_cons_ne _ hax, List.indexOf_cons_ne _ hbx]
        exact Nat.succ_lt_succ hab

/-- C9: the reference extractor scans the description first and then the
comments in order; its output is the concatenated scan deduplicated by
exact string equality — no duplicates, membership unchanged, every raw
match returned exactly once (so a reference appearing verbatim in both
the description and a comment appears once), output ordered by first
occurrence — and every pattern matcher is case-insensitive: lowercasing
the text changes no match. -/
theorem find_testim_references_dedup (description_text : String)
    (comments : List String) :
    rawTestimMatches description_text comments
        = textTestimMatches description_text
          ++ comments.flatMap textTestimMatches ∧
    (find_testim_references description_text comments).Nodup ∧
    (∀ r, r ∈ find_testim_references description_text comments ↔
      r ∈ rawTestimMatches description_text comments) ∧
    (∀ r, r ∈ rawTestimMatches description_text comments →
      (find_testim_references description_text comments).count r = 1) ∧
    List.Pairwise
      (fun a b => List.indexOf a (rawTestimMatches description_text comments)
        < List.indexOf b (rawTestimMatches description_text comments))
      (find_testim_references description_text comments) ∧
    (∀ m ∈ _TESTIM_PATTERNS, ∀ csx : List Char,
      m (csx.map Char.toLower) = m csx) := by
  have hmem : ∀ r, r ∈ find_testim_references description_text comments ↔
      r ∈ rawTestimMatches description_text comments := by
    intro r
    rw [find_testim_references, pyDedup, mem_pyDedupGo]
    simp
  refine ⟨by simp [rawTestimMatches], nodup_pyDedupGo _ [], hmem, ?_,
    pyDedupGo_pairwise _ [], ?_⟩
  · intro r hr
    exact List.count_eq_one_of_mem (nodup_pyDedupGo _ []) ((hmem r).2 hr)
  · intro m hm csx
    simp only [_TESTIM_PATTERNS, List.mem_cons, List.mem_singleton,
      List.not_mem_nil, or_false] at hm
    rcases hm with rfl | rfl | rfl
    · exact matchP1_map csx
    · exact matchP2_map csx
    · exact matchP3_map csx

/-- C9 witness: the spec's scenario — a Testim URL appearing verbatim in
both the description and a comment is returned exactly once. -/
theorem find_testim_references_dedup_witness :
    (find_testim_references "see https://app.testim.io/run/abc123"
      ["see https://app.testim.io/run/abc123"]).count
      "https://app.testim.io/run/abc123" = 1 :=
  (find_testim_references_dedup "see https://app.testim.io/run/abc123"
    ["see https://app.testim.io/run/abc123"]).2.2.2.1
    "https://app.testim.io/run/abc123" (by decide)

end Jira
